import Mathlib

/-!
Verification of the concurrency core of the orange-canvas repository.

The development shallowly embeds:
  * the Future state machine (the repository aliases
    `concurrent.futures.Future` at `orangecanvas/utils/concurrent.py:85`;
    its implementation is not part of the sources, so the operations are
    modelled from the specification, section 4.1);
  * `FutureWatcher` (`orangecanvas/utils/concurrent.py`);
  * `FutureRunnable.run` (`orangecanvas/utils/concurrent.py`);
  * `method_invoke` and the watcher done-callback (`concurrent.py`);
  * `ThreadPoolExecutor` submit/shutdown and its pending-future tracking
    (`orangecanvas/utils/concurrent.py`), as a small transition system;
  * `WidgetManager` of `OrangeCanvas/scheme/widgetsscheme.py` (the deferred
    materialization scheduler).
-/

namespace OrangeCanvasProof

/-! ### Association list helpers (model of Python dict keyed by Nat) -/

def lookupA {β : Type} : List (Nat × β) → Nat → Option β
  | [], _ => none
  | (k, v) :: rest, key => if key = k then some v else lookupA rest key

def setA {β : Type} : List (Nat × β) → Nat → β → List (Nat × β)
  | [], key, nv => [(key, nv)]
  | (k, v) :: rest, key, nv =>
      if k = key then (key, nv) :: rest else (k, v) :: setA rest key nv

def eraseA {β : Type} : List (Nat × β) → Nat → List (Nat × β)
  | [], _ => []
  | (k, v) :: rest, key =>
      if k = key then eraseA rest key else (k, v) :: eraseA rest key

def modifyA {β : Type} : List (Nat × β) → Nat → (β → β) → List (Nat × β)
  | [], _, _ => []
  | (k, v) :: rest, key, g =>
      if k = key then (k, g v) :: modifyA rest key g
      else (k, v) :: modifyA rest key g

theorem lookupA_setA_self {β : Type} (l : List (Nat × β)) (k : Nat) (v : β) :
    lookupA (setA l k v) k = some v := by
  induction l with
  | nil => simp [setA, lookupA]
  | cons hd tl ih =>
      obtain ⟨k0, v0⟩ := hd
      by_cases h : k0 = k
      · simp [setA, h, lookupA]
      · simp [setA, h, lookupA, Ne.symm h, ih]

theorem lookupA_setA_other {β : Type} (l : List (Nat × β)) (k k2 : Nat) (v : β)
    (h : k2 ≠ k) : lookupA (setA l k v) k2 = lookupA l k2 := by
  induction l with
  | nil => simp [setA, lookupA, h]
  | cons hd tl ih =>
      obtain ⟨k0, v0⟩ := hd
      by_cases h0 : k0 = k
      · subst h0
        simp [setA, lookupA, h]
      · by_cases h2 : k2 = k0
        · simp [setA, h0, lookupA, h2]
        · simp [setA, h0, lookupA, h2, ih]

theorem lookupA_eraseA_self {β : Type} (l : List (Nat × β)) (k : Nat) :
    lookupA (eraseA l k) k = none := by
  induction l with
  | nil => simp [eraseA, lookupA]
  | cons hd tl ih =>
      obtain ⟨k0, v0⟩ := hd
      by_cases h : k0 = k
      · simp [eraseA, h, ih]
      · simp [eraseA, h, lookupA, Ne.symm h, ih]

theorem lookupA_eraseA_other {β : Type} (l : List (Nat × β)) (k k2 : Nat)
    (h : k2 ≠ k) : lookupA (eraseA l k) k2 = lookupA l k2 := by
  induction l with
  | nil => simp [eraseA]
  | cons hd tl ih =>
      obtain ⟨k0, v0⟩ := hd
      by_cases h0 : k0 = k
      · subst h0
        simp [eraseA, lookupA, h, ih]
      · by_cases h2 : k2 = k0
        · simp [eraseA, h0, lookupA, h2]
        · simp [eraseA, h0, lookupA, h2, ih]

theorem lookupA_modifyA_self {β : Type} (l : List (Nat × β)) (k : Nat)
    (g : β → β) (v : β) (h : lookupA l k = some v) :
    lookupA (modifyA l k g) k = some (g v) := by
  induction l with
  | nil => simp [lookupA] at h
  | cons hd tl ih =>
      obtain ⟨k0, v0⟩ := hd
      by_cases h0 : k0 = k
      · subst h0
        simp [lookupA] at h
        simp [modifyA, lookupA, h]
      · simp [lookupA, Ne.symm h0] at h
        simp [modifyA, h0, lookupA, Ne.symm h0, ih h]

theorem lookupA_modifyA_other {β : Type} (l : List (Nat × β)) (k k2 : Nat)
    (g : β → β) (h : k2 ≠ k) :
    lookupA (modifyA l k g) k2 = lookupA l k2 := by
  induction l with
  | nil => simp [modifyA]
  | cons hd tl ih =>
      obtain ⟨k0, v0⟩ := hd
      by_cases h0 : k0 = k
      · subst h0
        simp [modifyA, lookupA, h, ih]
      · by_cases h2 : k2 = k0
        · simp [modifyA, h0, lookupA, h2]
        · simp [modifyA, h0, lookupA, h2, ih]

/-! ### Future states -/

/-- States of a future (spec section 3: Pending, Running, Cancelled,
Finished). -/
inductive FState : Type
  | Pending
  | Running
  | Cancelled
  | Finished
deriving DecidableEq, Repr

/-- A state is terminal when the future is done (Cancelled or Finished). -/
def FState.isTerminal : FState → Bool
  | .Cancelled => true
  | .Finished => true
  | _ => false

/-! ### The Future result cell

Modelled from the spec: `concurrent.futures.Future` is only aliased at
`orangecanvas/utils/concurrent.py:85`; its implementation is not part of the
sources. The operations below follow the specification, section 4.1.
Callbacks are identified by numeric tokens; operations report which
callbacks fire. -/

/-- Modelled from the spec: a single-assignment result cell with a state, at
most one of result/error payloads, and an ordered done-callback list. -/
structure Future (α ε : Type) : Type where
  state : FState
  resultVal : Option α
  errorVal : Option ε
  callbacks : List Nat
deriving DecidableEq, Repr

/-- A freshly created future: Pending, no payload, no callbacks. -/
def Future.new {α ε : Type} : Future α ε :=
  ⟨FState.Pending, none, none, []⟩

/-- Pure state query: the future is done (cancelled or finished). -/
def Future.done {α ε : Type} (f : Future α ε) : Bool :=
  f.state = FState.Cancelled ∨ f.state = FState.Finished

/-- Pure state query: the future was cancelled. -/
def Future.cancelled {α ε : Type} (f : Future α ε) : Bool :=
  f.state = FState.Cancelled

/-- Modelled from the spec: `cancel()` is legal only from Pending; it moves
the future to Cancelled, fires the registered callbacks and returns true.
From any other state it returns false and changes nothing. The second
component is the return value, the third lists the callbacks fired. -/
def Future.cancel {α ε : Type} (f : Future α ε) : Future α ε × Bool × List Nat :=
  if f.state = FState.Pending then
    ({ f with state := FState.Cancelled }, true, f.callbacks)
  else
    (f, false, [])

/-- Modelled from the spec: `tryStartRunning` (the stdlib
`set_running_or_notify_cancel`) moves Pending to Running and returns true;
it returns false if the future was already cancelled; it is a no-op once
already Running or Finished. -/
def Future.tryStartRunning {α ε : Type} (f : Future α ε) : Future α ε × Bool :=
  match f.state with
  | FState.Pending => ({ f with state := FState.Running }, true)
  | FState.Cancelled => (f, false)
  | _ => (f, false)

/-- Modelled from the spec: `setResult` is legal only from Running; it moves
the future to Finished with the result payload and fires the callbacks.
`none` models the stdlib raising on an illegal state. -/
def Future.setResult {α ε : Type} (f : Future α ε) (v : α) :
    Option (Future α ε × List Nat) :=
  if f.state = FState.Running then
    some ({ f with state := FState.Finished, resultVal := some v }, f.callbacks)
  else
    none

/-- Modelled from the spec: `setError` is legal only from Running; it moves
the future to Finished with the error payload and fires the callbacks. -/
def Future.setError {α ε : Type} (f : Future α ε) (e : ε) :
    Option (Future α ε × List Nat) :=
  if f.state = FState.Running then
    some ({ f with state := FState.Finished, errorVal := some e }, f.callbacks)
  else
    none

/-- Outcome of registering a done-callback: the updated future, the
callbacks invoked synchronously inside the registering call, and the
callbacks enqueued on the owner loop for later delivery. -/
structure AddCbOutcome (α ε : Type) : Type where
  future : Future α ε
  syncCalls : List Nat
  enqueued : List Nat
deriving DecidableEq, Repr

/-- Modelled from the spec: `addDoneCallback(cb)` appends the callback when
the future is not yet terminal; when the future is already terminal the
callback is still delivered, but asynchronously through the owner loop
(enqueued), never synchronously in the caller stack. -/
def Future.addDoneCallback {α ε : Type} (f : Future α ε) (cb : Nat) :
    AddCbOutcome α ε :=
  if f.done then
    ⟨f, [], [cb]⟩
  else
    ⟨{ f with callbacks := f.callbacks ++ [cb] }, [], []⟩

/-! ### FutureWatcher (`orangecanvas/utils/concurrent.py`, class FutureWatcher) -/

/-- Signals emitted by `FutureWatcher`. In the source `resultReady` emits
`future.result()` (the stored result slot, possibly `None`), hence the
`Option` payload; `exceptionReady` is emitted only when the stored
exception is non-trivial. -/
inductive Sig (α ε : Type) : Type
  | done
  | finished
  | cancelled
  | resultReady (v : Option α)
  | exceptionReady (e : ε)
deriving DecidableEq, Repr

namespace FutureWatcher

/-- The private registered event type for the completion notification
(`FutureWatcher.__FutureDone`). -/
def futureDoneType : Nat := 0

/-- Translation of `FutureWatcher.__emitSignals`: asserts the future is
done (`none` models an assertion failure), then emits
`cancelled, done` when cancelled, else `finished, done` followed by
`exceptionReady` when an exception is stored and `resultReady` otherwise. -/
def emitSignals {α ε : Type} (f : Future α ε) : Option (List (Sig α ε)) :=
  if f.done = false then none
  else if f.cancelled then
    some [Sig.cancelled, Sig.done]
  else if f.done then
    some (match f.errorVal with
      | some e => [Sig.finished, Sig.done, Sig.exceptionReady e]
      | none => [Sig.finished, Sig.done, Sig.resultReady f.resultVal])
  else none

/-- Translation of `FutureWatcher.customEvent`: on the private
future-done event type it emits the signals; other events emit nothing. -/
def customEvent {α ε : Type} (etype : Nat) (f : Future α ε) :
    Option (List (Sig α ε)) :=
  if etype = futureDoneType then emitSignals f else some []

/-- Translation of the `on_done` closure registered by
`FutureWatcher.setFuture`: it dereferences the weak reference to the
watcher; when the watcher no longer exists it returns without posting;
otherwise it posts the future-done event, swallowing a RuntimeError from a
destroyed underlying object. The result lists the posted event types. -/
def on_done (selfref : Option Unit) (postRaises : Bool) : List Nat :=
  match selfref with
  | none => []
  | some _ => if postRaises then [] else [futureDoneType]

end FutureWatcher

/-! ### FutureRunnable (`orangecanvas/utils/concurrent.py`, lines 230 to 248) -/

/-- Result of `FutureRunnable.run`: the final future, whether the wrapped
callable was invoked, the done-callbacks fired during the run, and whether
the outer exception handler logged an escaped exception (nothing is ever
re-raised past it). -/
structure RunResult (α ε : Type) : Type where
  future : Future α ε
  invoked : Bool
  fired : List Nat
  loggedCritical : Bool
deriving DecidableEq, Repr

/-- Translation of `FutureRunnable.run`: call
`set_running_or_notify_cancel`; when it returns false the callable is not
invoked and the run returns. Otherwise invoke the callable (modelled as a
function to `Except`), store a raised error with `setError` and a normal
return with `setResult`. The outer handler catches and logs anything the
inner operations raise, so nothing escapes the run. -/
def FutureRunnable.run {α ε : Type} (f : Future α ε)
    (func : Unit → Except ε α) : RunResult α ε :=
  let started := f.tryStartRunning
  if started.2 = false then
    ⟨started.1, false, [], false⟩
  else
    match func () with
    | Except.error e =>
        match started.1.setError e with
        | some (f2, cbs) => ⟨f2, true, cbs, false⟩
        | none => ⟨started.1, true, [], true⟩
    | Except.ok v =>
        match started.1.setResult v with
        | some (f2, cbs) => ⟨f2, true, cbs, false⟩
        | none => ⟨started.1, true, [], true⟩

/-! ### method_invoke (`orangecanvas/utils/concurrent.py`, lines 63 to 80) -/

/-- Translation of the closure returned by `method_invoke`: dereference the
weak reference to the target; when the target has been destroyed return
False without delivering anything; otherwise request the queued meta-call
on the live target and return its result. The second component lists the
targets a delivery was requested for. -/
def method_invoke_call (ref : Option Nat) (invokeMethod : Nat → Bool) :
    Bool × List Nat :=
  match ref with
  | none => (false, [])
  | some obj => (invokeMethod obj, [obj])

/-! ### ThreadPoolExecutor (`orangecanvas/utils/concurrent.py`, lines 107 to 197)

The executor is modelled as a transition system: `submit` creates a fresh
future and (when tracking) registers the `notify_done` callback and adds
the future to the pending set before handing the task to the pool; worker
steps advance a future through its states, and the terminal transitions
fire `notify_done`, which removes the future from the pending set. -/

/-- Internal executor state: the pending future set (by id), the shutdown
flag and the `trackPending` configuration, the state guarded by the single
lock in the source. -/
structure Executor : Type where
  pendingFutures : List Nat
  shutdownFlag : Bool
  track : Bool
deriving DecidableEq, Repr

/-- Removal of a future id from the pending set (`notify_done` body,
`self.__pending_futures.remove(future)`). -/
def removeNat (l : List Nat) (x : Nat) : List Nat :=
  l.filter (fun y => y ≠ x)

/-- The `notify_done` done-callback registered by `submit` when tracking:
removes the future from the pending set under the lock. -/
def Executor.notifyDone (e : Executor) (fid : Nat) : Executor :=
  { e with pendingFutures := removeNat e.pendingFutures fid }

/-- Whole submission system: the executor, the states of every future
created by `submit` (keyed by id), and the next fresh id. -/
structure ExecSys : Type where
  exec : Executor
  futures : List (Nat × FState)
  nextId : Nat
deriving DecidableEq, Repr

/-- A freshly constructed executor (`ThreadPoolExecutor.__init__`): no
pending futures, not shut down, with the given `trackPending` flag. -/
def initSys (track : Bool) : ExecSys :=
  ⟨⟨[], false, track⟩, [], 0⟩

/-- The primitive actions `submit` performs, in source order. -/
inductive SubmitAction : Type
  | checkShutdown
  | createFuture (fid : Nat)
  | registerDoneCallback (fid : Nat)
  | addPending (fid : Nat)
  | poolStart (fid : Nat)
deriving DecidableEq, Repr

/-- Translation of `ThreadPoolExecutor.submit`: under the lock, raise if
shut down; otherwise create a fresh future, and if tracking register
`notify_done` and add the future to the pending set, then hand the task to
the thread pool. Returns the new system state, the future id and the action
trace in source order. -/
def ExecSys.submit (s : ExecSys) :
    Except String (ExecSys × Nat × List SubmitAction) :=
  if s.exec.shutdownFlag then
    Except.error "cannot schedule new futures after shutdown"
  else
    Except.ok
      (⟨if s.exec.track then
          { s.exec with pendingFutures := s.exec.pendingFutures ++ [s.nextId] }
        else s.exec,
        s.futures ++ [(s.nextId, FState.Pending)], s.nextId + 1⟩,
       s.nextId,
       [SubmitAction.checkShutdown, SubmitAction.createFuture s.nextId] ++
         (if s.exec.track then
           [SubmitAction.registerDoneCallback s.nextId,
            SubmitAction.addPending s.nextId]
          else []) ++ [SubmitAction.poolStart s.nextId])

/-- Observable steps of the system: a submission, a worker starting a task
(`set_running_or_notify_cancel` succeeding), a worker finishing a task
(`set_result`/`set_exception`, firing done-callbacks), or a successful
`cancel` of a still-pending future (also firing done-callbacks). -/
inductive ExecStep : Type
  | submit
  | start (fid : Nat)
  | finish (fid : Nat)
  | cancelStep (fid : Nat)
deriving DecidableEq, Repr

/-- One transition of the executor system. Terminal transitions fire the
`notify_done` callback exactly when tracking registered it. -/
def ExecSys.step (s : ExecSys) : ExecStep → ExecSys
  | ExecStep.submit =>
      match s.submit with
      | Except.ok (s2, _, _) => s2
      | Except.error _ => s
  | ExecStep.start fid =>
      match lookupA s.futures fid with
      | some FState.Pending =>
          { s with futures := setA s.futures fid FState.Running }
      | _ => s
  | ExecStep.finish fid =>
      match lookupA s.futures fid with
      | some FState.Running =>
          { s with futures := setA s.futures fid FState.Finished,
                   exec := if s.exec.track then s.exec.notifyDone fid
                           else s.exec }
      | _ => s
  | ExecStep.cancelStep fid =>
      match lookupA s.futures fid with
      | some FState.Pending =>
          { s with futures := setA s.futures fid FState.Cancelled,
                   exec := if s.exec.track then s.exec.notifyDone fid
                           else s.exec }
      | _ => s

/-- Run a list of steps from a state. -/
def ExecSys.run (s : ExecSys) : List ExecStep → ExecSys
  | [] => s
  | st :: rest => (s.step st).run rest

/-- The executor invariant: future ids are below the fresh counter; with
tracking disabled the pending set is empty; with tracking enabled the
pending set holds exactly the created futures that are not yet terminal. -/
structure ExecSys.Inv (s : ExecSys) : Prop where
  keyBound : ∀ fid st, lookupA s.futures fid = some st → fid < s.nextId
  pendingUntracked : s.exec.track = false → s.exec.pendingFutures = []
  pendingIff : s.exec.track = true → ∀ fid,
    fid ∈ s.exec.pendingFutures ↔
      ∃ st, lookupA s.futures fid = some st ∧ st.isTerminal = false

theorem lookupA_append_of_some {β : Type} (l1 l2 : List (Nat × β)) (k : Nat)
    (v : β) (h : lookupA l1 k = some v) : lookupA (l1 ++ l2) k = some v := by
  induction l1 with
  | nil => simp [lookupA] at h
  | cons hd tl ih =>
      obtain ⟨k0, v0⟩ := hd
      by_cases h0 : k = k0
      · simp [lookupA, h0] at h ⊢
        exact h
      · simp [lookupA, h0] at h ⊢
        exact ih h

theorem lookupA_append_of_none {β : Type} (l1 l2 : List (Nat × β)) (k : Nat)
    (h : lookupA l1 k = none) : lookupA (l1 ++ l2) k = lookupA l2 k := by
  induction l1 with
  | nil => simp
  | cons hd tl ih =>
      obtain ⟨k0, v0⟩ := hd
      by_cases h0 : k = k0
      · simp [lookupA, h0] at h
      · simp [lookupA, h0] at h ⊢
        exact ih h

theorem mem_removeNat (l : List Nat) (x k : Nat) :
    k ∈ removeNat l x ↔ k ∈ l ∧ k ≠ x := by
  simp [removeNat, List.mem_filter]

theorem lookupA_fresh (s : ExecSys) (hinv : s.Inv) :
    lookupA s.futures s.nextId = none := by
  cases h : lookupA s.futures s.nextId with
  | none => rfl
  | some st => exact absurd (hinv.keyBound _ _ h) (lt_irrefl _)

theorem submit_shape (s s2 : ExecSys) (fid : Nat) (acts : List SubmitAction)
    (hsub : s.submit = Except.ok (s2, fid, acts)) :
    s.exec.shutdownFlag = false ∧ fid = s.nextId ∧
    s2.futures = s.futures ++ [(s.nextId, FState.Pending)] ∧
    s2.nextId = s.nextId + 1 ∧
    s2.exec = (if s.exec.track then
        { s.exec with pendingFutures := s.exec.pendingFutures ++ [s.nextId] }
      else s.exec) ∧
    acts = [SubmitAction.checkShutdown, SubmitAction.createFuture s.nextId] ++
      (if s.exec.track then
        [SubmitAction.registerDoneCallback s.nextId,
         SubmitAction.addPending s.nextId]
       else []) ++ [SubmitAction.poolStart s.nextId] := by
  unfold ExecSys.submit at hsub
  cases hsd : s.exec.shutdownFlag with
  | true =>
      rw [hsd] at hsub
      simp at hsub
  | false =>
      rw [hsd] at hsub
      rw [if_neg (by simp), Except.ok.injEq, Prod.mk.injEq, Prod.mk.injEq]
        at hsub
      obtain ⟨h1, h2, h3⟩ := hsub
      subst h1
      subst h2
      subst h3
      exact ⟨rfl, rfl, rfl, rfl, rfl, rfl⟩

theorem submit_inv (s s2 : ExecSys) (fid : Nat) (acts : List SubmitAction)
    (hinv : s.Inv) (hsub : s.submit = Except.ok (s2, fid, acts)) : s2.Inv := by
  obtain ⟨hsd, hfid, hfut, hnext, hexec, hacts⟩ := submit_shape s s2 fid acts hsub
  have hfreshl : lookupA s.futures s.nextId = none := lookupA_fresh s hinv
  refine ⟨?_, ?_, ?_⟩
  · intro k st hk
    rw [hfut] at hk
    rw [hnext]
    cases h0 : lookupA s.futures k with
    | some st0 =>
        exact Nat.lt_succ_of_lt (hinv.keyBound _ _ h0)
    | none =>
        rw [lookupA_append_of_none _ _ _ h0] at hk
        by_cases hkn : k = s.nextId
        · rw [hkn]
          exact Nat.lt_succ_self _
        · simp [lookupA, hkn] at hk
  · intro htr
    rw [hexec] at htr ⊢
    cases ht : s.exec.track with
    | true => simp [ht] at htr
    | false =>
        simp only [ht, Bool.false_eq_true, if_false] at htr ⊢
        exact hinv.pendingUntracked ht
  · intro htr k
    rw [hexec] at htr ⊢
    cases ht : s.exec.track with
    | false => simp [ht] at htr
    | true =>
      simp only [ht, eq_self_iff_true, if_true] at htr ⊢
      rw [hfut]
      constructor
      · intro hmem
        rcases List.mem_append.mp hmem with hk | hk
        · obtain ⟨st0, h0, hnt⟩ := (hinv.pendingIff ht k).mp hk
          exact ⟨st0, lookupA_append_of_some _ _ _ _ h0, hnt⟩
        · have hkn : k = s.nextId := by simpa using hk
          rw [hkn]
          refine ⟨FState.Pending, ?_, rfl⟩
          rw [lookupA_append_of_none _ _ _ hfreshl]
          simp [lookupA]
      · rintro ⟨st0, h0, hnt⟩
        by_cases hkn : k = s.nextId
        · exact List.mem_append.mpr (Or.inr (by simp [hkn]))
        · cases hcase : lookupA s.futures k with
          | some st1 =>
              rw [lookupA_append_of_some _ _ _ _ hcase] at h0
              cases h0
              exact List.mem_append.mpr
                (Or.inl ((hinv.pendingIff ht k).mpr ⟨st0, hcase, hnt⟩))
          | none =>
              rw [lookupA_append_of_none _ _ _ hcase] at h0
              simp [lookupA, hkn] at h0

theorem step_inv (s : ExecSys) (t : ExecStep) (hinv : s.Inv) :
    (s.step t).Inv := by
  cases t with
  | submit =>
      simp only [ExecSys.step]
      cases hsub : s.submit with
      | error e => exact hinv
      | ok r =>
          obtain ⟨s2, fid, acts⟩ := r
          exact submit_inv s s2 fid acts hinv hsub
  | start fid =>
      simp only [ExecSys.step]
      cases hl : lookupA s.futures fid with
      | none => exact hinv
      | some st =>
          cases st with
          | Pending =>
              refine ⟨?_, hinv.pendingUntracked, ?_⟩
              · intro k st2 hk
                by_cases hkf : k = fid
                · subst hkf
                  exact hinv.keyBound _ _ hl
                · rw [lookupA_setA_other _ _ _ _ hkf] at hk
                  exact hinv.keyBound _ _ hk
              · intro htr k
                by_cases hkf : k = fid
                · subst hkf
                  constructor
                  · intro _
                    exact ⟨FState.Running, lookupA_setA_self _ _ _, rfl⟩
                  · intro _
                    exact (hinv.pendingIff htr k).mpr ⟨FState.Pending, hl, rfl⟩
                · simp only [lookupA_setA_other _ _ _ _ hkf]
                  exact hinv.pendingIff htr k
          | Running => exact hinv
          | Cancelled => exact hinv
          | Finished => exact hinv
  | finish fid =>
      simp only [ExecSys.step]
      cases hl : lookupA s.futures fid with
      | none => exact hinv
      | some st =>
          cases st with
          | Running =>
              cases ht : s.exec.track with
              | true =>
                simp only [ht, eq_self_iff_true, if_true]
                refine ⟨?_, ?_, ?_⟩
                · intro k st2 hk
                  by_cases hkf : k = fid
                  · subst hkf
                    exact hinv.keyBound _ _ hl
                  · rw [lookupA_setA_other _ _ _ _ hkf] at hk
                    exact hinv.keyBound _ _ hk
                · intro htr
                  exact absurd htr (by simp [Executor.notifyDone, ht])
                · intro _ k
                  rw [show (s.exec.notifyDone fid).pendingFutures =
                        removeNat s.exec.pendingFutures fid from rfl]
                  rw [mem_removeNat]
                  by_cases hkf : k = fid
                  · subst hkf
                    constructor
                    · rintro ⟨_, hne⟩
                      exact absurd rfl hne
                    · rintro ⟨st2, h2, hnt⟩
                      rw [lookupA_setA_self] at h2
                      cases h2
                      simp [FState.isTerminal] at hnt
                  · simp only [lookupA_setA_other _ _ _ _ hkf]
                    constructor
                    · rintro ⟨hmem, _⟩
                      exact (hinv.pendingIff ht k).mp hmem
                    · intro hex
                      exact ⟨(hinv.pendingIff ht k).mpr hex, hkf⟩
              | false =>
                simp only [ht, Bool.false_eq_true, if_false]
                refine ⟨?_, hinv.pendingUntracked, ?_⟩
                · intro k st2 hk
                  by_cases hkf : k = fid
                  · subst hkf
                    exact hinv.keyBound _ _ hl
                  · rw [lookupA_setA_other _ _ _ _ hkf] at hk
                    exact hinv.keyBound _ _ hk
                · intro htr
                  exact absurd htr (by simp [ht])
          | Pending => exact hinv
          | Cancelled => exact hinv
          | Finished => exact hinv
  | cancelStep fid =>
      simp only [ExecSys.step]
      cases hl : lookupA s.futures fid with
      | none => exact hinv
      | some st =>
          cases st with
          | Pending =>
              cases ht : s.exec.track with
              | true =>
                simp only [ht, eq_self_iff_true, if_true]
                refine ⟨?_, ?_, ?_⟩
                · intro k st2 hk
                  by_cases hkf : k = fid
                  · subst hkf
                    exact hinv.keyBound _ _ hl
                  · rw [lookupA_setA_other _ _ _ _ hkf] at hk
                    exact hinv.keyBound _ _ hk
                · intro htr
                  exact absurd htr (by simp [Executor.notifyDone, ht])
                · intro _ k
                  rw [show (s.exec.notifyDone fid).pendingFutures =
                        removeNat s.exec.pendingFutures fid from rfl]
                  rw [mem_removeNat]
                  by_cases hkf : k = fid
                  · subst hkf
                    constructor
                    · rintro ⟨_, hne⟩
                      exact absurd rfl hne
                    · rintro ⟨st2, h2, hnt⟩
                      rw [lookupA_setA_self] at h2
                      cases h2
                      simp [FState.isTerminal] at hnt
                  · simp only [lookupA_setA_other _ _ _ _ hkf]
                    constructor
                    · rintro ⟨hmem, _⟩
                      exact (hinv.pendingIff ht k).mp hmem
                    · intro hex
                      exact ⟨(hinv.pendingIff ht k).mpr hex, hkf⟩
              | false =>
                simp only [ht, Bool.false_eq_true, if_false]
                refine ⟨?_, hinv.pendingUntracked, ?_⟩
                · intro k st2 hk
                  by_cases hkf : k = fid
                  · subst hkf
                    exact hinv.keyBound _ _ hl
                  · rw [lookupA_setA_other _ _ _ _ hkf] at hk
                    exact hinv.keyBound _ _ hk
                · intro htr
                  exact absurd htr (by simp [ht])
          | Running => exact hinv
          | Cancelled => exact hinv
          | Finished => exact hinv

theorem run_inv (steps : List ExecStep) (s : ExecSys) (hinv : s.Inv) :
    (s.run steps).Inv := by
  induction steps generalizing s with
  | nil => exact hinv
  | cons t rest ih => exact ih _ (step_inv s t hinv)

theorem init_inv (track : Bool) : (initSys track).Inv := by
  refine ⟨?_, ?_, ?_⟩
  · intro fid st h
    simp [initSys, lookupA] at h
  · intro _
    rfl
  · intro _ fid
    simp [initSys, lookupA]

theorem track_step (s : ExecSys) (t : ExecStep) :
    (s.step t).exec.track = s.exec.track := by
  cases t with
  | submit =>
      simp only [ExecSys.step]
      cases hsub : s.submit with
      | error e => rfl
      | ok r =>
          obtain ⟨s2, fid, acts⟩ := r
          obtain ⟨_, _, _, _, hexec, _⟩ := submit_shape s s2 fid acts hsub
          rw [hexec]
          cases ht : s.exec.track with
          | true => simp [ht]
          | false => simp [ht]
  | start fid =>
      simp only [ExecSys.step]
      cases hl : lookupA s.futures fid with
      | none => rfl
      | some st => cases st <;> rfl
  | finish fid =>
      simp only [ExecSys.step]
      cases hl : lookupA s.futures fid with
      | none => rfl
      | some st =>
          cases st with
          | Running =>
              cases ht : s.exec.track with
              | true => simp [ht, Executor.notifyDone]
              | false => simp [ht]
          | Pending => rfl
          | Cancelled => rfl
          | Finished => rfl
  | cancelStep fid =>
      simp only [ExecSys.step]
      cases hl : lookupA s.futures fid with
      | none => rfl
      | some st =>
          cases st with
          | Pending =>
              cases ht : s.exec.track with
              | true => simp [ht, Executor.notifyDone]
              | false => simp [ht]
          | Running => rfl
          | Cancelled => rfl
          | Finished => rfl

theorem track_run (steps : List ExecStep) (s : ExecSys) :
    (s.run steps).exec.track = s.exec.track := by
  induction steps generalizing s with
  | nil => rfl
  | cons t rest ih => rw [ExecSys.run, ih, track_step]

theorem shutdown_stable_step (s : ExecSys) (t : ExecStep)
    (h : s.exec.shutdownFlag = true) :
    (s.step t).exec.shutdownFlag = true := by
  cases t with
  | submit =>
      simp only [ExecSys.step]
      cases hsub : s.submit with
      | error e => exact h
      | ok r =>
          obtain ⟨s2, fid, acts⟩ := r
          obtain ⟨hsd, _⟩ := submit_shape s s2 fid acts hsub
          rw [h] at hsd
          cases hsd
  | start fid =>
      simp only [ExecSys.step]
      cases hl : lookupA s.futures fid with
      | none => exact h
      | some st => cases st <;> exact h
  | finish fid =>
      simp only [ExecSys.step]
      cases hl : lookupA s.futures fid with
      | none => exact h
      | some st =>
          cases st with
          | Running =>
              cases ht : s.exec.track with
              | true => simpa [ht, Executor.notifyDone] using h
              | false => simpa [ht] using h
          | Pending => exact h
          | Cancelled => exact h
          | Finished => exact h
  | cancelStep fid =>
      simp only [ExecSys.step]
      cases hl : lookupA s.futures fid with
      | none => exact h
      | some st =>
          cases st with
          | Pending =>
              cases ht : s.exec.track with
              | true => simpa [ht, Executor.notifyDone] using h
              | false => simpa [ht] using h
          | Running => exact h
          | Cancelled => exact h
          | Finished => exact h

theorem keys_step_shutdown (s : ExecSys) (t : ExecStep) (k : Nat)
    (h : s.exec.shutdownFlag = true) :
    (lookupA (s.step t).futures k).isSome = (lookupA s.futures k).isSome := by
  cases t with
  | submit =>
      simp only [ExecSys.step]
      cases hsub : s.submit with
      | error e => rfl
      | ok r =>
          obtain ⟨s2, fid, acts⟩ := r
          obtain ⟨hsd, _⟩ := submit_shape s s2 fid acts hsub
          rw [h] at hsd
          cases hsd
  | start fid =>
      simp only [ExecSys.step]
      cases hl : lookupA s.futures fid with
      | none => rfl
      | some st =>
          cases st with
          | Pending =>
              by_cases hkf : k = fid
              · subst hkf
                rw [lookupA_setA_self, hl]
                rfl
              · rw [lookupA_setA_other _ _ _ _ hkf]
          | Running => rfl
          | Cancelled => rfl
          | Finished => rfl
  | finish fid =>
      simp only [ExecSys.step]
      cases hl : lookupA s.futures fid with
      | none => rfl
      | some st =>
          cases st with
          | Running =>
              by_cases hkf : k = fid
              · subst hkf
                rw [lookupA_setA_self, hl]
                rfl
              · rw [lookupA_setA_other _ _ _ _ hkf]
          | Pending => rfl
          | Cancelled => rfl
          | Finished => rfl
  | cancelStep fid =>
      simp only [ExecSys.step]
      cases hl : lookupA s.futures fid with
      | none => rfl
      | some st =>
          cases st with
          | Pending =>
              by_cases hkf : k = fid
              · subst hkf
                rw [lookupA_setA_self, hl]
                rfl
              · rw [lookupA_setA_other _ _ _ _ hkf]
          | Running => rfl
          | Cancelled => rfl
          | Finished => rfl

theorem keys_run_shutdown (steps : List ExecStep) (s : ExecSys) (k : Nat)
    (h : s.exec.shutdownFlag = true) :
    (lookupA (s.run steps).futures k).isSome = (lookupA s.futures k).isSome := by
  induction steps generalizing s with
  | nil => rfl
  | cons t rest ih =>
      rw [ExecSys.run, ih _ (shutdown_stable_step s t h), keys_step_shutdown s t k h]

theorem terminal_stable_step (s : ExecSys) (t : ExecStep) (fid : Nat)
    (st : FState) (hl : lookupA s.futures fid = some st)
    (ht : st.isTerminal = true) :
    lookupA (s.step t).futures fid = some st := by
  cases t with
  | submit =>
      simp only [ExecSys.step]
      cases hsub : s.submit with
      | error e => exact hl
      | ok r =>
          obtain ⟨s2, fid2, acts⟩ := r
          obtain ⟨_, _, hfut, _⟩ := submit_shape s s2 fid2 acts hsub
          rw [hfut]
          exact lookupA_append_of_some _ _ _ _ hl
  | start k =>
      simp only [ExecSys.step]
      cases hk : lookupA s.futures k with
      | none => exact hl
      | some stk =>
          cases stk with
          | Pending =>
              by_cases hkf : fid = k
              · subst hkf
                rw [hl] at hk
                cases hk
                cases ht
              · rw [lookupA_setA_other _ _ _ _ hkf]
                exact hl
          | Running => exact hl
          | Cancelled => exact hl
          | Finished => exact hl
  | finish k =>
      simp only [ExecSys.step]
      cases hk : lookupA s.futures k with
      | none => exact hl
      | some stk =>
          cases stk with
          | Running =>
              by_cases hkf : fid = k
              · subst hkf
                rw [hl] at hk
                cases hk
                cases ht
              · rw [lookupA_setA_other _ _ _ _ hkf]
                exact hl
          | Pending => exact hl
          | Cancelled => exact hl
          | Finished => exact hl
  | cancelStep k =>
      simp only [ExecSys.step]
      cases hk : lookupA s.futures k with
      | none => exact hl
      | some stk =>
          cases stk with
          | Pending =>
              by_cases hkf : fid = k
              · subst hkf
                rw [hl] at hk
                cases hk
                cases ht
              · rw [lookupA_setA_other _ _ _ _ hkf]
                exact hl
          | Running => exact hl
          | Cancelled => exact hl
          | Finished => exact hl

theorem terminal_stable_run (steps : List ExecStep) (s : ExecSys) (fid : Nat)
    (st : FState) (hl : lookupA s.futures fid = some st)
    (ht : st.isTerminal = true) :
    lookupA (s.run steps).futures fid = some st := by
  induction steps generalizing s with
  | nil => exact hl
  | cons t rest ih => exact ih _ (terminal_stable_step s t fid st hl ht)

/-! ### shutdown (`orangecanvas/utils/concurrent.py`, lines 172 to 197) -/

/-- Translation of `ThreadPoolExecutor.shutdown`: under the lock set the
shutdown flag and, when `wait`, snapshot the pending futures; warn when
`wait` is true but tracking was disabled at construction; when `wait`,
hand the snapshot to the blocking `concurrent.futures.wait`. The result is
the new executor state, the future ids passed to the blocking wait
(`none` when `wait` is false and the wait call is skipped), and whether
the warning was issued. -/
def Executor.shutdown (e : Executor) (wait : Bool) :
    Executor × Option (List Nat) × Bool :=
  ({ e with shutdownFlag := true },
   if wait then some e.pendingFutures else none,
   wait && !e.track)

/-- The future with this id is recorded as terminal in the store. -/
def terminalIn (store : List (Nat × FState)) (fid : Nat) : Bool :=
  match lookupA store fid with
  | some st => st.isTerminal
  | none => false

/-- Modelled from the spec: the stdlib `concurrent.futures.wait(fs)` (not
part of the sources) blocks its caller until every future in `fs` is done;
this predicate characterizes a store in which that wait call has
returned. -/
def allTerminalIn (store : List (Nat × FState)) (fs : List Nat) : Prop :=
  ∀ fid ∈ fs, terminalIn store fid = true

/-! ### WidgetManager (`OrangeCanvas/scheme/widgetsscheme.py`, lines 44 to 288)

Nodes, widgets and futures are identified by numbers. The per-node futures
of the manager are plain `concurrent.futures.Future` cells holding the
widget; the three operations the manager uses on them (`cancel`,
`cancelled`/`done`, `set_result`) are modelled from the spec since the
stdlib implementation is not part of the sources. -/

/-- A future cell used by `WidgetManager`: its state and the stored widget
result. -/
structure WFut : Type where
  state : FState
  result : Option Nat
deriving DecidableEq, Repr

/-- A freshly created pending future (`concurrent.futures.Future()`). -/
def WFut.pendingW : WFut :=
  ⟨FState.Pending, none⟩

/-- Modelled from the spec: `cancel()` moves a Pending future to Cancelled
and returns true; from any other state it returns false and changes
nothing. -/
def WFut.cancel (f : WFut) : WFut × Bool :=
  if f.state = FState.Pending then
    ({ f with state := FState.Cancelled }, true)
  else
    (f, false)

/-- Pure state query: the future is done (cancelled or finished). -/
def WFut.done (f : WFut) : Bool :=
  f.state = FState.Cancelled ∨ f.state = FState.Finished

/-- Pure state query: the future was cancelled. -/
def WFut.cancelled (f : WFut) : Bool :=
  f.state = FState.Cancelled

/-- Modelled from the spec: fulfilling the future of a Delayed entity with
the built object (`future.set_result(widget)`); a no-op on an already
terminal future. -/
def WFut.setRes (f : WFut) (w : Nat) : WFut :=
  if f.done then f else ⟨FState.Finished, some w⟩

/-- Widget initialization states (`WidgetManager.Delayed` and
`WidgetManager.Materialized` namedtuples). -/
inductive InitState : Type
  | Delayed (node : Nat) (future : Nat)
  | Materialized (node : Nat) (widget : Nat)
deriving DecidableEq, Repr

/-- Observable side effects of the manager, in emission order:
`create_widget_instance` invocations, the `widget_for_node_added` and
`widget_for_node_removed` signals, and `remove_widget` (the non-blocking
`deleteLater` disposal). -/
inductive WMEvent : Type
  | createCalled (node : Nat)
  | addedSig (node : Nat) (widget : Nat)
  | removedSig (node : Nat) (widget : Nat)
  | disposeCalled (widget : Nat)
deriving DecidableEq, Repr

/-- State of a `WidgetManager`: the per-node `__initstate_for_node` map,
the `__widget_for_node` and `__node_for_widget` maps, the `__widgets`
list, the future store, fresh counters for futures and widgets, the
pending `WidgetInitEvent` payloads posted to the owner loop, the event
trace, and the `__delayed_init` policy flag. -/
structure WMState : Type where
  initstate : List (Nat × InitState)
  widgetForNode : List (Nat × Nat)
  nodeForWidget : List (Nat × Nat)
  widgets : List Nat
  futures : List (Nat × WFut)
  nextFuture : Nat
  nextWidget : Nat
  posted : List (Nat × Nat)
  trace : List WMEvent
  delayedInit : Bool
deriving DecidableEq, Repr

/-- A fresh manager (`WidgetManager.__init__`); the source fixes
`__delayed_init` to True, kept as a parameter to cover both dispatch
paths of `add_widget_for_node`. -/
def WMState.initial (delayedInit : Bool) : WMState :=
  ⟨[], [], [], [], [], 0, 0, [], [], delayedInit⟩

/-- Translation of `WidgetManager.__materialize` for a Delayed state
`(node, fid)`: call `create_widget_instance` (a fresh widget id), append
the widget, register the bidirectional node-widget lookup, store the
Materialized state, fulfil the future with the widget, and emit
`widget_for_node_added`. Returns the new state and the widget. -/
def WMState.materialize (s : WMState) (node fid : Nat) : WMState × Nat :=
  ({ s with
      trace := s.trace ++ [WMEvent.createCalled node,
                           WMEvent.addedSig node s.nextWidget],
      nextWidget := s.nextWidget + 1,
      widgets := s.widgets ++ [s.nextWidget],
      widgetForNode := setA s.widgetForNode node s.nextWidget,
      nodeForWidget := setA s.nodeForWidget s.nextWidget node,
      initstate := setA s.initstate node
        (InitState.Materialized node s.nextWidget),
      futures := modifyA s.futures fid (fun f => f.setRes s.nextWidget) },
   s.nextWidget)

/-- Translation of `WidgetManager.widget_for_node`: look up the init
state; a Delayed state is materialized now and its widget returned; a
Materialized state returns its widget; `none` models the KeyError on an
unknown node. -/
def WMState.widget_for_node (s : WMState) (node : Nat) :
    Option (WMState × Nat) :=
  match lookupA s.initstate node with
  | some (InitState.Delayed n fid) => some (s.materialize n fid)
  | some (InitState.Materialized _ w) => some (s, w)
  | none => none

/-- Translation of the `WidgetManager.customEvent` branch for a
`WidgetInitEvent.DelayedInit` event carrying the Delayed state
`(node, fid)`: when the future is neither cancelled nor done the state is
materialized; otherwise the event is a no-op. -/
def WMState.dispatchInitEvent (s : WMState) (node fid : Nat) : WMState :=
  match lookupA s.futures fid with
  | some f => if f.cancelled || f.done then s else (s.materialize node fid).1
  | none => s

/-- Translation of `WidgetManager.add_widget_for_node`: create a fresh
pending future, store the Delayed state, and either post a low-priority
delayed `WidgetInitEvent` on the owner loop (when `__delayed_init`) or
send it synchronously. -/
def WMState.add_widget_for_node (s : WMState) (node : Nat) : WMState :=
  if s.delayedInit then
    { s with
        futures := setA s.futures s.nextFuture WFut.pendingW,
        nextFuture := s.nextFuture + 1,
        initstate := setA s.initstate node
          (InitState.Delayed node s.nextFuture),
        posted := s.posted ++ [(node, s.nextFuture)] }
  else
    ({ s with
        futures := setA s.futures s.nextFuture WFut.pendingW,
        nextFuture := s.nextFuture + 1,
        initstate := setA s.initstate node
          (InitState.Delayed node s.nextFuture) } :
      WMState).dispatchInitEvent node s.nextFuture

/-- Translation of `WidgetManager.remove_widget_for_node`: a Delayed state
has its future cancelled and its entry discarded; a Materialized state
first emits `widget_for_node_removed` while the widget is still alive,
then calls `remove_widget` (non-blocking disposal), removes the widget
from the list and deletes the init state and the node-to-widget entry.
The source never deletes the `__node_for_widget` entry, and neither does
this translation. `none` models the KeyError on an unknown node. -/
def WMState.remove_widget_for_node (s : WMState) (node : Nat) :
    Option WMState :=
  match lookupA s.initstate node with
  | some (InitState.Delayed _ fid) =>
      some { s with
        futures := modifyA s.futures fid (fun f => (f.cancel).1),
        initstate := eraseA s.initstate node }
  | some (InitState.Materialized _ w) =>
      some { s with
        trace := s.trace ++ [WMEvent.removedSig node w,
                             WMEvent.disposeCalled w],
        widgets := removeNat s.widgets w,
        initstate := eraseA s.initstate node,
        widgetForNode := eraseA s.widgetForNode node }
  | none => none

/-- Translation of `WidgetManager.node_for_widget`: a plain lookup in the
`__node_for_widget` map; `none` models the KeyError. -/
def WMState.node_for_widget (s : WMState) (widget : Nat) : Option Nat :=
  lookupA s.nodeForWidget widget

/-! ### Claim theorems -/

/-- Claim C1: when the queued future-done event of the watcher is
dispatched on the owner thread, the emitted notification sequence is
exactly `cancelled, done` for a cancelled future; `finished, done,
exceptionReady(e)` for a finished future whose error payload is set; and
`finished, done, resultReady(v)` for a finished future whose result
payload is set and error payload is not; no other order occurs. -/
theorem C1_watcher_signal_order {α ε : Type} (f : Future α ε)
    (hdone : f.done = true) :
    (f.cancelled = true →
      FutureWatcher.customEvent FutureWatcher.futureDoneType f =
        some [Sig.cancelled, Sig.done]) ∧
    (∀ e : ε, f.cancelled = false → f.errorVal = some e →
      FutureWatcher.customEvent FutureWatcher.futureDoneType f =
        some [Sig.finished, Sig.done, Sig.exceptionReady e]) ∧
    (∀ v : α, f.cancelled = false → f.errorVal = none → f.resultVal = some v →
      FutureWatcher.customEvent FutureWatcher.futureDoneType f =
        some [Sig.finished, Sig.done, Sig.resultReady (some v)]) := by
  refine ⟨?_, ?_, ?_⟩
  · intro hc
    simp [FutureWatcher.customEvent, FutureWatcher.emitSignals, hdone, hc]
  · intro e hc he
    simp [FutureWatcher.customEvent, FutureWatcher.emitSignals, hdone, hc, he]
  · intro v hc he hv
    simp [FutureWatcher.customEvent, FutureWatcher.emitSignals, hdone, hc,
          he, hv]

/-- Witness for C1 at a concrete finished future with a result payload. -/
theorem C1_witness :
    FutureWatcher.customEvent FutureWatcher.futureDoneType
      (⟨FState.Finished, some 9, none, []⟩ : Future Nat Nat) =
      some [Sig.finished, Sig.done, Sig.resultReady (some 9)] :=
  (C1_watcher_signal_order _ (by decide)).2.2 9 (by decide) rfl rfl

/-- Claim C2: in `FutureRunnable.run`, when `tryStartRunning` returns
false the callable is never invoked and the run returns with the future
untouched by the callable; otherwise the callable is invoked, a raised
error is stored in the error slot, a normal return in the result slot,
and nothing escapes the run uncaught. -/
theorem C2_task_boundary {α ε : Type} (f : Future α ε)
    (func : Unit → Except ε α) :
    ((f.tryStartRunning).2 = false →
      (FutureRunnable.run f func).invoked = false ∧
      (FutureRunnable.run f func).future = (f.tryStartRunning).1 ∧
      (FutureRunnable.run f func).loggedCritical = false) ∧
    ((f.tryStartRunning).2 = true →
      (FutureRunnable.run f func).invoked = true ∧
      (FutureRunnable.run f func).loggedCritical = false ∧
      (∀ e : ε, func () = Except.error e →
        (FutureRunnable.run f func).future.state = FState.Finished ∧
        (FutureRunnable.run f func).future.errorVal = some e) ∧
      (∀ v : α, func () = Except.ok v →
        (FutureRunnable.run f func).future.state = FState.Finished ∧
        (FutureRunnable.run f func).future.resultVal = some v)) := by
  obtain ⟨st, rv, ev, cbs⟩ := f
  cases st with
  | Pending =>
      refine ⟨?_, ?_⟩
      · intro h
        simp [Future.tryStartRunning] at h
      · intro _
        cases hf : func () with
        | error e =>
            refine ⟨?_, ?_, ?_, ?_⟩
            · simp [FutureRunnable.run, Future.tryStartRunning, hf,
                    Future.setError]
            · simp [FutureRunnable.run, Future.tryStartRunning, hf,
                    Future.setError]
            · intro e2 he2
              injection he2 with h
              subst h
              constructor <;>
                simp [FutureRunnable.run, Future.tryStartRunning, hf,
                      Future.setError]
            · intro v hv
              simp at hv
        | ok v =>
            refine ⟨?_, ?_, ?_, ?_⟩
            · simp [FutureRunnable.run, Future.tryStartRunning, hf,
                    Future.setResult]
            · simp [FutureRunnable.run, Future.tryStartRunning, hf,
                    Future.setResult]
            · intro e2 he2
              simp at he2
            · intro v2 hv2
              injection hv2 with h
              subst h
              constructor <;>
                simp [FutureRunnable.run, Future.tryStartRunning, hf,
                      Future.setResult]
  | Running =>
      refine ⟨?_, ?_⟩
      · intro _
        refine ⟨rfl, rfl, rfl⟩
      · intro h
        simp [Future.tryStartRunning] at h
  | Cancelled =>
      refine ⟨?_, ?_⟩
      · intro _
        refine ⟨rfl, rfl, rfl⟩
      · intro h
        simp [Future.tryStartRunning] at h
  | Finished =>
      refine ⟨?_, ?_⟩
      · intro _
        refine ⟨rfl, rfl, rfl⟩
      · intro h
        simp [Future.tryStartRunning] at h

/-- Witness for C2 at a concrete pending future and a callable returning
a value. -/
theorem C2_witness :
    (FutureRunnable.run (Future.new : Future Nat Nat)
        (fun _ => Except.ok 3)).future.resultVal = some 3 ∧
    (FutureRunnable.run (Future.new : Future Nat Nat)
        (fun _ => Except.ok 3)).invoked = true := by
  have h := (C2_task_boundary (Future.new : Future Nat Nat)
      (fun _ => Except.ok 3)).2 rfl
  exact ⟨(h.2.2.2 3 rfl).2, h.1⟩

/-- Claim C3: `cancel()` returns true exactly when invoked while the
future is still Pending, and after a successful `tryStartRunning` any
`cancel()` returns false. -/
theorem C3_cancel_iff_pending {α ε : Type} (f : Future α ε) :
    ((f.cancel).2.1 = true ↔ f.state = FState.Pending) ∧
    ((f.tryStartRunning).2 = true →
      (((f.tryStartRunning).1).cancel).2.1 = false) := by
  obtain ⟨st, rv, ev, cbs⟩ := f
  cases st <;> simp [Future.cancel, Future.tryStartRunning]

/-- Witness for C3: cancelling after a successful start returns false. -/
theorem C3_witness :
    (((Future.new : Future Nat Nat).tryStartRunning).1.cancel).2.1 = false :=
  (C3_cancel_iff_pending (Future.new : Future Nat Nat)).2 rfl

/-- Claim C4: registering a done-callback on an already terminal future
invokes it exactly once and asynchronously: nothing is called inside the
registering call, the callback is enqueued on the owner loop exactly once,
and it is not added to the persistent callback list (so no later
transition can fire it again). -/
theorem C4_late_callback_async {α ε : Type} (f : Future α ε) (cb : Nat)
    (hdone : f.done = true) :
    (f.addDoneCallback cb).syncCalls = [] ∧
    (f.addDoneCallback cb).enqueued = [cb] ∧
    (f.addDoneCallback cb).future = f := by
  simp [Future.addDoneCallback, hdone]

/-- Witness for C4 at a concrete finished future. -/
theorem C4_witness :
    ((⟨FState.Finished, some 5, none, []⟩ :
        Future Nat Nat).addDoneCallback 3).syncCalls = [] ∧
    ((⟨FState.Finished, some 5, none, []⟩ :
        Future Nat Nat).addDoneCallback 3).enqueued = [3] ∧
    ((⟨FState.Finished, some 5, none, []⟩ :
        Future Nat Nat).addDoneCallback 3).future =
      ⟨FState.Finished, some 5, none, []⟩ :=
  C4_late_callback_async _ 3 (by decide)

/-- Claim C9: a cross-thread call whose weak target is gone returns False
and delivers to no target, and the watcher done-callback with a destroyed
watcher posts no event; neither raises (both are total functions). -/
theorem C9_dead_target_noop (invokeMethod : Nat → Bool) (postRaises : Bool) :
    method_invoke_call none invokeMethod = (false, []) ∧
    FutureWatcher.on_done none postRaises = [] :=
  ⟨rfl, rfl⟩

/-- Claim C5: requesting the widget of a node in the Delayed state (with
its future still pending) materializes synchronously within the call: the
state becomes Materialized, the future is fulfilled with the widget, the
added notification is emitted exactly once (the trace grows by exactly one
create and one added event), and a later dispatch of the scheduled
delayed-materialization event for that node is a no-op. -/
theorem C5_get_materializes_once (s : WMState) (node fid : Nat)
    (hstate : lookupA s.initstate node = some (InitState.Delayed node fid))
    (hfut : lookupA s.futures fid = some WFut.pendingW) :
    ∃ s2 w,
      s.widget_for_node node = some (s2, w) ∧
      lookupA s2.initstate node = some (InitState.Materialized node w) ∧
      lookupA s2.futures fid = some ⟨FState.Finished, some w⟩ ∧
      s2.trace = s.trace ++ [WMEvent.createCalled node,
                             WMEvent.addedSig node w] ∧
      s2.dispatchInitEvent node fid = s2 := by
  have hfut2 : lookupA (s.materialize node fid).1.futures fid =
      some ⟨FState.Finished, some s.nextWidget⟩ := by
    have h := lookupA_modifyA_self s.futures fid
      (fun f => f.setRes s.nextWidget) _ hfut
    simpa [WMState.materialize, WFut.setRes, WFut.done, WFut.pendingW] using h
  refine ⟨(s.materialize node fid).1, s.nextWidget, ?_, ?_, ?_, ?_, ?_⟩
  · rw [WMState.widget_for_node, hstate]
    rfl
  · exact lookupA_setA_self _ _ _
  · exact hfut2
  · rfl
  · rw [WMState.dispatchInitEvent, hfut2]
    simp [WFut.cancelled, WFut.done]

/-- Witness for C5: a node registered on a fresh manager. -/
theorem C5_witness :
    ∃ s2 w,
      ((WMState.initial true).add_widget_for_node 7).widget_for_node 7 =
        some (s2, w) ∧
      lookupA s2.initstate 7 = some (InitState.Materialized 7 w) ∧
      lookupA s2.futures 0 = some ⟨FState.Finished, some w⟩ ∧
      s2.trace = ((WMState.initial true).add_widget_for_node 7).trace ++
        [WMEvent.createCalled 7, WMEvent.addedSig 7 w] ∧
      s2.dispatchInitEvent 7 0 = s2 :=
  C5_get_materializes_once _ 7 0 (by decide) (by decide)

/-- Claim C6: unregistering a node in the Delayed state cancels its
future and discards its entry; no create or added event is produced, and
the previously scheduled delayed-materialization event for it later
dispatches as a no-op, so the build capability is never invoked for that
registration. -/
theorem C6_unregister_delayed (s : WMState) (node fid : Nat)
    (hstate : lookupA s.initstate node = some (InitState.Delayed node fid))
    (hfut : lookupA s.futures fid = some WFut.pendingW) :
    ∃ s2,
      s.remove_widget_for_node node = some s2 ∧
      lookupA s2.futures fid = some ⟨FState.Cancelled, none⟩ ∧
      lookupA s2.initstate node = none ∧
      s2.trace = s.trace ∧
      s2.dispatchInitEvent node fid = s2 := by
  have hfut2 : lookupA (modifyA s.futures fid (fun f => (f.cancel).1)) fid =
      some ⟨FState.Cancelled, none⟩ := by
    have h := lookupA_modifyA_self s.futures fid (fun f => (f.cancel).1) _ hfut
    simpa [WFut.cancel, WFut.pendingW] using h
  refine ⟨{ s with
      futures := modifyA s.futures fid (fun f => (f.cancel).1),
      initstate := eraseA s.initstate node }, ?_, ?_, ?_, ?_, ?_⟩
  · rw [WMState.remove_widget_for_node, hstate]
  · exact hfut2
  · exact lookupA_eraseA_self _ _
  · rfl
  · rw [WMState.dispatchInitEvent]
    rw [show ({ s with
        futures := modifyA s.futures fid (fun f => (f.cancel).1),
        initstate := eraseA s.initstate node } : WMState).futures =
      modifyA s.futures fid (fun f => (f.cancel).1) from rfl]
    rw [hfut2]
    simp [WFut.cancelled]

/-- Witness for C6: unregistering a freshly registered node. -/
theorem C6_witness :
    ∃ s2,
      ((WMState.initial true).add_widget_for_node 7).remove_widget_for_node 7 =
        some s2 ∧
      lookupA s2.futures 0 = some ⟨FState.Cancelled, none⟩ ∧
      lookupA s2.initstate 7 = none ∧
      s2.trace = ((WMState.initial true).add_widget_for_node 7).trace ∧
      s2.dispatchInitEvent 7 0 = s2 :=
  C6_unregister_delayed _ 7 0 (by decide) (by decide)

/-- Claim C8, evaluated at the failing input: register node 7, materialize
through `widget_for_node`, then remove. The removed notification is
emitted before disposal and the node-to-widget entry is discarded, but the
widget-to-node lookup still succeeds afterwards because
`remove_widget_for_node` never deletes the `__node_for_widget` entry —
contradicting the claim that neither lookup succeeds after unregister. -/
theorem C8_reverse_lookup_not_discarded :
    ∃ s1 s2 : WMState,
      ((WMState.initial true).add_widget_for_node 7).widget_for_node 7 =
        some (s1, 0) ∧
      s1.remove_widget_for_node 7 = some s2 ∧
      s2.trace = s1.trace ++ [WMEvent.removedSig 7 0,
                              WMEvent.disposeCalled 0] ∧
      lookupA s2.widgetForNode 7 = none ∧
      lookupA s2.initstate 7 = none ∧
      s2.node_for_widget 0 = some 7 := by
  refine ⟨⟨[(7, InitState.Materialized 7 0)], [(7, 0)], [(0, 7)], [0],
           [(0, ⟨FState.Finished, some 0⟩)], 1, 1, [(7, 0)],
           [WMEvent.createCalled 7, WMEvent.addedSig 7 0], true⟩,
          ⟨[], [], [(0, 7)], [],
           [(0, ⟨FState.Finished, some 0⟩)], 1, 1, [(7, 0)],
           [WMEvent.createCalled 7, WMEvent.addedSig 7 0,
            WMEvent.removedSig 7 0, WMEvent.disposeCalled 0], true⟩,
          ?_, ?_, ?_, ?_, ?_, ?_⟩ <;> decide

/-- Claim C7: on a reachable executor state, `shutdown(wait=True)` with
tracking enabled issues no warning and hands exactly the pending (tracked,
unfinished) futures to the blocking wait, and once that wait returns
every tracked future is terminal; with tracking disabled it issues the
warning and hands the empty list to the wait, hence does not block. -/
theorem C7_shutdown_wait (track : Bool) (steps : List ExecStep) (s : ExecSys)
    (hs : s = ExecSys.run (initSys track) steps) :
    (track = true →
      (s.exec.shutdown true).2.2 = false ∧
      (s.exec.shutdown true).2.1 = some s.exec.pendingFutures ∧
      ∀ steps2 : List ExecStep,
        allTerminalIn
          (ExecSys.run ⟨(s.exec.shutdown true).1, s.futures, s.nextId⟩
            steps2).futures
          s.exec.pendingFutures →
        ∀ fid st,
          lookupA
            (ExecSys.run ⟨(s.exec.shutdown true).1, s.futures, s.nextId⟩
              steps2).futures fid = some st →
          st.isTerminal = true) ∧
    (track = false →
      (s.exec.shutdown true).2.2 = true ∧
      (s.exec.shutdown true).2.1 = some []) := by
  have hinv : s.Inv := by
    rw [hs]
    exact run_inv steps _ (init_inv track)
  have htrk : s.exec.track = track := by
    rw [hs, track_run]
    rfl
  constructor
  · intro htr
    rw [htr] at htrk
    refine ⟨?_, ?_, ?_⟩
    · simp [Executor.shutdown, htrk]
    · rfl
    · intro steps2 hterm fid st hl2
      have hinv1 : (⟨(s.exec.shutdown true).1, s.futures, s.nextId⟩ :
          ExecSys).Inv :=
        ⟨hinv.keyBound, hinv.pendingUntracked, hinv.pendingIff⟩
      have hflag : ((⟨(s.exec.shutdown true).1, s.futures, s.nextId⟩ :
          ExecSys)).exec.shutdownFlag = true := rfl
      have hkeys := keys_run_shutdown steps2
        ⟨(s.exec.shutdown true).1, s.futures, s.nextId⟩ fid hflag
      rw [hl2] at hkeys
      cases h0 : lookupA s.futures fid with
      | none =>
          rw [h0] at hkeys
          simp at hkeys
      | some st0 =>
          cases hterm0 : st0.isTerminal with
          | true =>
              have hst := terminal_stable_run steps2
                ⟨(s.exec.shutdown true).1, s.futures, s.nextId⟩ fid st0 h0
                hterm0
              rw [hl2] at hst
              injection hst with h
              rw [h]
              exact hterm0
          | false =>
              have hmem : fid ∈ s.exec.pendingFutures :=
                (hinv.pendingIff htrk fid).mpr ⟨st0, h0, hterm0⟩
              have ht2 := hterm fid hmem
              rw [terminalIn, hl2] at ht2
              exact ht2
  · intro htr
    rw [htr] at htrk
    have hpend : s.exec.pendingFutures = [] := hinv.pendingUntracked htrk
    refine ⟨?_, ?_⟩
    · simp [Executor.shutdown, htrk]
    · simp [Executor.shutdown, hpend]

/-- Witness for C7: one tracked submission, shut down, then the worker
runs it to completion; the wait set is the pending snapshot and the
waited future ends terminal. -/
theorem C7_witness :
    ((ExecSys.run (initSys true) [ExecStep.submit]).exec.shutdown true).2.1 =
      some (ExecSys.run (initSys true) [ExecStep.submit]).exec.pendingFutures ∧
    FState.isTerminal FState.Finished = true := by
  have h := C7_shutdown_wait true [ExecStep.submit] _ rfl
  exact ⟨(h.1 rfl).2.1,
    (h.1 rfl).2.2 [ExecStep.start 0, ExecStep.finish 0]
      (by unfold allTerminalIn; decide) 0 FState.Finished (by decide)⟩

/-- Claim C10: on a reachable tracked executor, a successful `submit`
performs its actions in source order — the pending-set insertion comes
before the hand-off to the pool, with the done-callback registration
present — the returned future is pending and in the pending set, and from
then on, at every reachable later state, the pending set holds exactly
the created futures that are not yet terminal (each future hence leaves
it exactly once, at its terminal transition). -/
theorem C10_pending_tracking (track : Bool) (steps : List ExecStep)
    (s2 : ExecSys) (fid : Nat) (acts : List SubmitAction)
    (hsub : (ExecSys.run (initSys track) steps).submit =
      Except.ok (s2, fid, acts))
    (htrack : track = true) :
    acts = [SubmitAction.checkShutdown, SubmitAction.createFuture fid,
            SubmitAction.registerDoneCallback fid, SubmitAction.addPending fid,
            SubmitAction.poolStart fid] ∧
    fid ∈ s2.exec.pendingFutures ∧
    lookupA s2.futures fid = some FState.Pending ∧
    ∀ steps2 k,
      k ∈ (ExecSys.run s2 steps2).exec.pendingFutures ↔
        ∃ st, lookupA (ExecSys.run s2 steps2).futures k = some st ∧
              st.isTerminal = false := by
  subst htrack
  have hinv : (ExecSys.run (initSys true) steps).Inv :=
    run_inv steps _ (init_inv true)
  have htrk : (ExecSys.run (initSys true) steps).exec.track = true := by
    rw [track_run]
    rfl
  obtain ⟨hsd, hfid, hfut, hnext, hexec, hacts⟩ :=
    submit_shape _ s2 fid acts hsub
  subst hfid
  refine ⟨?_, ?_, ?_, ?_⟩
  · rw [hacts, htrk]
    simp
  · rw [hexec, htrk]
    simp
  · rw [hfut, lookupA_append_of_none _ _ _ (lookupA_fresh _ hinv)]
    simp [lookupA]
  · have hinv2 : s2.Inv := submit_inv _ s2 _ _ hinv hsub
    have htrk2 : s2.exec.track = true := by
      rw [hexec]
      simp [htrk]
    intro steps2 k
    exact (run_inv steps2 s2 hinv2).pendingIff
      (by rw [track_run]; exact htrk2) k

/-- Witness for C10: the first submission on a fresh tracked executor. -/
theorem C10_witness :
    lookupA ((⟨⟨[0], false, true⟩, [(0, FState.Pending)], 1⟩ :
      ExecSys)).futures 0 = some FState.Pending :=
  (C10_pending_tracking true [] ⟨⟨[0], false, true⟩, [(0, FState.Pending)], 1⟩
    0
    [SubmitAction.checkShutdown, SubmitAction.createFuture 0,
     SubmitAction.registerDoneCallback 0, SubmitAction.addPending 0,
     SubmitAction.poolStart 0] rfl rfl).2.2.1

end OrangeCanvasProof
